import Mathlib

/-!
Verification of the transaction classification and recurrence-analysis
engine of the finance dashboard (src/main.py).  Python strings are
modelled as Lean `String`, Python `str.strip` and `str.lower` as the
`pyStrip` and `pyLower` functions below (ASCII semantics), pandas /
Python floats as exact rationals, dicts as insertion-ordered
association lists, and the JSON-backed store files as
`Option (Except String _)` values (absent, corrupt, or parsed).
-/

/-- Whitespace recognised by the Python strip model: space, tab, LF, CR. -/
def isSpaceChar (c : Char) : Bool :=
  decide (c.toNat = 32 ∨ c.toNat = 9 ∨ c.toNat = 10 ∨ c.toNat = 13)

/-- Remove leading and trailing whitespace from a character list. -/
def trimChars (cs : List Char) : List Char :=
  ((cs.dropWhile isSpaceChar).reverse.dropWhile isSpaceChar).reverse

/-- Model of Python str.strip(). -/
def pyStrip (s : String) : String := String.mk (trimChars s.data)

/-- Lower-case a single character (ASCII range), as Python str.lower does on ASCII. -/
def pyLowerChar (c : Char) : Char :=
  if 65 ≤ c.toNat ∧ c.toNat ≤ 90 then Char.ofNat (c.toNat + 32) else c

/-- Model of Python str.lower(). -/
def pyLower (s : String) : String := String.mk (s.data.map pyLowerChar)

/-- Does the first list occur at the head of the second list. -/
def startsWithChars : List Char → List Char → Bool
  | [], _ => true
  | _ :: _, [] => false
  | a :: as, b :: bs => a == b && startsWithChars as bs

/-- Does the first list occur contiguously anywhere inside the second list. -/
def containsChars (needle : List Char) : List Char → Bool
  | [] => startsWithChars needle []
  | c :: rest => startsWithChars needle (c :: rest) || containsChars needle rest

/-- Model of the Python membership test `needle in hay` on strings. -/
def pyContains (hay needle : String) : Bool := containsChars needle.data hay.data

/-- A parsed transaction row.  Dates are (year, month, day); amounts are
exact rationals standing for the Python floats of the source. -/
structure Txn where
  year : Nat
  month : Nat
  day : Nat
  details : String
  amount : ℚ
  direction : String
  category : String
deriving DecidableEq

/-- The Category Store: category name to keyword list, in insertion order
(a Python dict of lists). -/
abbrev CatStore := List (String × List String)

/-- The Budget Map: category name to cap, in insertion order. -/
abbrev BudgetMap := List (String × ℚ)

/-- One step of the classification loop body of categorize_transactions:
skip the fallback category and empty keyword sets, otherwise overwrite the
current assignment whenever any lowered stripped keyword occurs inside the
lowered stripped details. -/
def categorizeStep (details : String) (acc : String) (e : String × List String) : String :=
  if e.1 = "Uncategorized" ∨ e.2 = [] then acc
  else if e.2.any (fun k => pyContains (pyStrip (pyLower details)) (pyStrip (pyLower k))) then e.1
  else acc

/-- Final category of one transaction: the row starts at the fallback and
each category of the store is applied in insertion order. -/
def categorizeOne (store : CatStore) (details : String) : String :=
  store.foldl (categorizeStep details) "Uncategorized"

/-- Model of categorize_transactions: every row gets the category computed
from its details and the store. -/
def categorize_transactions (store : CatStore) (txns : List Txn) : List Txn :=
  txns.map (fun t => { t with category := categorizeOne store t.details })

/-- A store entry is an eligible match for some details text: not the
fallback, non-empty keywords, and some keyword occurs in the details. -/
def eligMatch (details : String) (e : String × List String) : Bool :=
  !(e.1 == "Uncategorized") && !e.2.isEmpty &&
    e.2.any (fun k => pyContains (pyStrip (pyLower details)) (pyStrip (pyLower k)))

/-- Look up the keyword list of a category (Python dict access). -/
def storeGet (store : CatStore) (c : String) : Option (List String) :=
  (store.find? (fun e => e.1 == c)).map Prod.snd

/-- Replace the keyword list of an existing category in place. -/
def storeSet (store : CatStore) (c : String) (v : List String) : CatStore :=
  store.map (fun e => if e.1 == c then (c, v) else e)

/-- Model of add_keyword_to_category: strip the keyword, reject empty text,
create the category if absent, reject case-insensitive duplicates, otherwise
append the raw stripped text.  The Bool result is True when applied. -/
def add_keyword_to_category (store : CatStore) (category keyword : String) :
    CatStore × Bool :=
  let kw := pyStrip keyword
  if kw = "" then (store, false)
  else
    let store1 := if (storeGet store category).isSome then store
                  else store ++ [(category, [])]
    let kws := (storeGet store1 category).getD []
    if (kws.map (fun k => pyStrip (pyLower k))).contains (pyLower kw) then (store1, false)
    else (storeSet store1 category (kws ++ [kw]), true)

/-- Budget store load: the file read sits in a try block, so absence keeps
the initial empty map and any read error falls back to the empty map. -/
def loadBudgets : Option (Except String BudgetMap) → BudgetMap
  | none => []
  | some (Except.ok b) => b
  | some (Except.error _) => []

/-- Category store load: the file read has no exception handler, so a
corrupt file propagates the error; absence keeps the initial default. -/
def loadCategories : Option (Except String CatStore) → Except String CatStore
  | none => Except.ok [("Uncategorized", [])]
  | some r => r

/-- Recurring keyword list load: try block with fallback to the empty list. -/
def loadRecurring : Option (Except String (List String)) → List String
  | none => []
  | some (Except.ok l) => l
  | some (Except.error _) => []

/-- The budget number input widget: requests below the minimum cannot be
entered, so the delivered value is clamped at the minimum. -/
def numberInputValue (minVal requested : ℚ) : ℚ := max minVal requested

/-- The Save Budget click handler: store the received value for the selected
category unconditionally (overwrite or insert). -/
def setBudget (b : BudgetMap) (cat : String) (v : ℚ) : BudgetMap :=
  if (b.find? (fun e => e.1 == cat)).isSome then
    b.map (fun e => if e.1 == cat then (cat, v) else e)
  else b ++ [(cat, v)]

/-- Budget lookup by category. -/
def budgetGet (b : BudgetMap) (cat : String) : Option ℚ :=
  (b.find? (fun e => e.1 == cat)).map Prod.snd

/-- What the Budget Status section reports for one category. -/
inductive BudgetView
  | noBudget : BudgetView
  | over : ℚ → ℚ → BudgetView
  | under : ℚ → ℚ → ℚ → BudgetView
deriving DecidableEq

/-- The Budget Status loop body for one category: cap looked up with default
0, nothing reported unless the cap is positive, over-budget with the overage
when spent exceeds the cap, otherwise under-budget with remaining amount and
percent used; the progress bar value is clamped at 1. -/
def budgetStatus (budgets : BudgetMap) (cat : String) (spent : ℚ) : BudgetView :=
  let budget := (budgetGet budgets cat).getD 0
  if 0 < budget then
    let ratio := spent / budget
    if budget < spent then BudgetView.over (spent - budget) (min ratio 1)
    else BudgetView.under (budget - spent) (ratio * 100) (min ratio 1)
  else BudgetView.noBudget

/-- Digits to the natural number they denote (most significant first). -/
def digitsToNat (cs : List Char) : Nat :=
  cs.foldl (fun acc c => acc * 10 + (c.toNat - 48)) 0

/-- Remove every comma, the thousands-separator stripping of the loader. -/
def stripCommas (s : String) : String :=
  String.mk (s.data.filter (fun c => !(c == ',')))

/-- Parse an unsigned decimal literal: digits with an optional fractional
part, at least one digit overall. -/
def parseUnsigned (cs : List Char) : Option ℚ :=
  let intPart := cs.takeWhile Char.isDigit
  let rest := cs.dropWhile Char.isDigit
  match rest with
  | [] => if intPart.isEmpty then none else some (digitsToNat intPart)
  | '.' :: frac =>
      if frac.all Char.isDigit && !(intPart.isEmpty && frac.isEmpty) then
        some ((digitsToNat intPart : ℚ) + (digitsToNat frac : ℚ) / (10 : ℚ) ^ frac.length)
      else none
  | _ => none

/-- Parse a signed decimal literal: the model of the float conversion on the
plain decimal strings of this dataset. -/
def parseDecimal (cs : List Char) : Option ℚ :=
  match cs with
  | '-' :: rest => (parseUnsigned rest).map (fun q => -q)
  | '+' :: rest => parseUnsigned rest
  | _ => parseUnsigned cs

/-- Amount normalization of the loader: strip commas, parse the decimal,
direction Credit exactly for negative values, store the absolute value. -/
def parseRowAmount (s : String) : Option (ℚ × String) :=
  (parseDecimal (stripCommas s).data).map
    (fun x => (|x|, if x < 0 then "Credit" else "Debit"))

/-- Days of each month under the Gregorian leap rule. -/
def daysInMonth (y m : Nat) : Nat :=
  if m = 2 then
    if (y % 4 = 0 ∧ y % 100 ≠ 0) ∨ y % 400 = 0 then 29 else 28
  else if m = 4 ∨ m = 6 ∨ m = 9 ∨ m = 11 then 30
  else 31

/-- Strict 8-digit YYYYMMDD date parsing. -/
def parseDate (s : String) : Option (Nat × Nat × Nat) :=
  let cs := s.data
  if cs.length = 8 ∧ cs.all Char.isDigit then
    let y := digitsToNat (cs.take 4)
    let m := digitsToNat ((cs.drop 4).take 2)
    let d := digitsToNat (cs.drop 6)
    if 1 ≤ m ∧ m ≤ 12 ∧ 1 ≤ d ∧ d ≤ daysInMonth y m then some (y, m, d) else none
  else none

/-- Positions of the three required columns among the trimmed header names. -/
def findCols (header : List String) : Option (Nat × Nat × Nat) :=
  let trimmed := header.map pyStrip
  match trimmed.findIdx? (fun h => h == "Transaction Date"),
      trimmed.findIdx? (fun h => h == "Description"),
      trimmed.findIdx? (fun h => h == "Transaction Amount") with
  | some i, some j, some k => some (i, j, k)
  | _, _, _ => none

/-- Parse one data row given the column positions: strict date, stripped
details, normalized amount and direction, fallback category. -/
def parseRow (cols : Nat × Nat × Nat) (row : List String) : Option Txn :=
  match row[cols.1]?, row[cols.2.1]?, row[cols.2.2]? with
  | some dateStr, some desc, some amtStr =>
      match parseDate dateStr, parseDecimal (stripCommas amtStr).data with
      | some ymd, some x =>
          some { year := ymd.1, month := ymd.2.1, day := ymd.2.2,
                 details := pyStrip desc, amount := |x|,
                 direction := if x < 0 then "Credit" else "Debit",
                 category := "Uncategorized" }
      | _, _ => none
  | _, _, _ => none

/-- Parse all data rows; a single failing row makes the whole result fail. -/
def parseRows (cols : Nat × Nat × Nat) : List (List String) → Option (List Txn)
  | [] => some []
  | row :: rest =>
      match parseRow cols row, parseRows cols rest with
      | some t, some ts => some (t :: ts)
      | _, _ => none

/-- Model of load_transactions: skip the 2 preamble lines, read the header,
locate the required columns, parse every row, then classify; any failure
aborts the whole load with a single error message. -/
def load_transactions (store : CatStore) (lines : List (List String)) :
    Except String (List Txn) :=
  match lines with
  | _ :: _ :: header :: rows =>
      match findCols header with
      | none => Except.error "error processing file: missing column"
      | some cols =>
          match parseRows cols rows with
          | none => Except.error "error processing file: malformed row"
          | some txns => Except.ok (categorize_transactions store txns)
  | _ => Except.error "error processing file: no data"

/-- The process-wide stores. -/
structure AppState where
  categories : CatStore
  budgets : BudgetMap
  recurring : List String
deriving DecidableEq

/-- The upload step of the main flow: on a load error the message is shown,
no transactions are produced and the stores are left untouched. -/
def uploadStep (st : AppState) (lines : List (List String)) :
    AppState × Option (List Txn) :=
  match load_transactions st.categories lines with
  | Except.error _ => (st, none)
  | Except.ok ts => (st, some ts)

/-- Debit restriction applied to the recurring tab base table. -/
def recurringBase (txns : List Txn) : List Txn :=
  txns.filter (fun t => t.direction == "Debit")

/-- Keyword-matched recurring transactions: keep the non-blank keywords,
lower and strip them, and keep every debit whose lowered details contains
any of them as a substring. -/
def recurringMatches (recurring : List String) (txns : List Txn) : List Txn :=
  let keywords := (recurring.filter (fun k => !(pyStrip k == ""))).map
      (fun k => pyStrip (pyLower k))
  (recurringBase txns).filter
    (fun t => keywords.any (fun k => pyContains (pyLower t.details) k))

/-- Calendar month key (the YYYY-MM period) of a transaction. -/
def monthOf (t : Txn) : Nat × Nat := (t.year, t.month)

/-- The (merchant, month) sums table of the recurring summary: one row per
distinct (details, month) pair with the summed amount. -/
def monthly_totals (m : List Txn) : List ((String × (Nat × Nat)) × ℚ) :=
  ((m.map (fun t => (t.details, monthOf t))).dedup).map
    (fun key => (key, ((m.filter (fun t => (t.details, monthOf t) == key)).map
        (fun t => t.amount)).sum))

/-- Monthly estimate of one merchant: the mean over the rows of the
(merchant, month) sums table belonging to that merchant; none when the
merchant has no matched transaction. -/
def monthly_estimate (m : List Txn) (d : String) : Option ℚ :=
  let vals := ((monthly_totals m).filter (fun r => r.1.1 == d)).map (fun r => r.2)
  if vals.length = 0 then none else some (vals.sum / vals.length)

/-- The distinct calendar months of one merchant. -/
def merchantMonths (m : List Txn) (d : String) : List (Nat × Nat) :=
  ((m.filter (fun t => t.details == d)).map monthOf).dedup

/-- The amount one merchant accumulates inside one calendar month. -/
def merchantMonthSum (m : List Txn) (d : String) (mo : Nat × Nat) : ℚ :=
  ((m.filter (fun t => t.details == d && monthOf t == mo)).map (fun t => t.amount)).sum

/-- The average of the per-month sums of one merchant. -/
def avgMonthlySums (m : List Txn) (d : String) : ℚ :=
  ((merchantMonths m d).map (merchantMonthSum m d)).sum / (merchantMonths m d).length

/-- Example: one merchant with two January debits of 4 and 6 and one March
debit of 10, so two distinct months with a 10 sum each. -/
def exStream : List Txn :=
  [ { year := 2024, month := 1, day := 3, details := "StreamCo", amount := 4,
      direction := "Debit", category := "Uncategorized" },
    { year := 2024, month := 1, day := 20, details := "StreamCo", amount := 6,
      direction := "Debit", category := "Uncategorized" },
    { year := 2024, month := 3, day := 3, details := "StreamCo", amount := 10,
      direction := "Debit", category := "Uncategorized" } ]

/-- One row of the auto-detected recurring candidates table. -/
structure CandRow where
  details : String
  months : Nat
  occurrences : Nat
  total : ℚ
  avg : ℚ
deriving DecidableEq

/-- The aggregation row of one merchant: distinct-month count, occurrence
count, total and mean amount. -/
def candRowOf (txns : List Txn) (d : String) : CandRow :=
  let g := txns.filter (fun t => t.details == d)
  { details := d
    months := ((g.map monthOf).dedup).length
    occurrences := g.length
    total := (g.map (fun t => t.amount)).sum
    avg := (g.map (fun t => t.amount)).sum / g.length }

/-- Group the debit base by exact details string: one row per merchant. -/
def candidateRows (txns : List Txn) : List CandRow :=
  ((txns.map (fun t => t.details)).dedup).map (candRowOf txns)

/-- Sort order of the candidates table: distinct-month count descending,
ties by total descending. -/
def candBefore (x y : CandRow) : Prop :=
  y.months < x.months ∨ (x.months = y.months ∧ y.total ≤ x.total)

instance : DecidableRel candBefore := fun x y =>
  inferInstanceAs (Decidable (y.months < x.months ∨ (x.months = y.months ∧ y.total ≤ x.total)))

instance : IsTotal CandRow candBefore where
  total a b := by
    unfold candBefore
    rcases lt_trichotomy a.months b.months with h | h | h
    · right
      left
      exact h
    · rcases le_total b.total a.total with ht | ht
      · left
        right
        exact ⟨h, ht⟩
      · right
        right
        exact ⟨h.symm, ht⟩
    · left
      left
      exact h

instance : IsTrans CandRow candBefore where
  trans a b c hab hbc := by
    unfold candBefore at *
    rcases hab with h1 | ⟨h1, t1⟩ <;> rcases hbc with h2 | ⟨h2, t2⟩
    · exact Or.inl (lt_trans h2 h1)
    · exact Or.inl (h2 ▸ h1)
    · exact Or.inl (h1 ▸ h2)
    · exact Or.inr ⟨h1.trans h2, t2.trans t1⟩

/-- The candidates table: aggregate the debit base per merchant, sort by
months then total (both descending), keep merchants reaching the distinct
month threshold, cap at 50 rows. -/
def candidates (txns : List Txn) (minMonths : Nat) : List CandRow :=
  ((List.insertionSort candBefore (candidateRows (recurringBase txns))).filter
      (fun r => minMonths ≤ r.months)).take 50

/-- Example: one merchant with debits in exactly two distinct months. -/
def exGym : List Txn :=
  [ { year := 2024, month := 1, day := 5, details := "GymCo", amount := 30,
      direction := "Debit", category := "Uncategorized" },
    { year := 2024, month := 2, day := 5, details := "GymCo", amount := 30,
      direction := "Debit", category := "Uncategorized" } ]

theorem categorizeStep_eq_if (details : String) (acc : String) (e : String × List String) :
    categorizeStep details acc e = if eligMatch details e then e.1 else acc := by
  unfold categorizeStep eligMatch
  rcases e with ⟨c, kws⟩
  by_cases h1 : c = "Uncategorized" <;>
    by_cases h2 : kws = [] <;>
      simp [h1, h2, List.isEmpty_iff]

theorem foldl_overwrite_eq_getLastD (p : α → Bool) (f : α → String) :
    ∀ (l : List α) (a : String),
      l.foldl (fun acc e => if p e then f e else acc) a
        = ((l.filter p).map f).getLastD a := by
  intro l
  induction l with
  | nil => intro a; rfl
  | cons e t ih =>
    intro a
    rcases hpe : p e with _ | _
    · simp only [List.foldl_cons, List.filter_cons, hpe]
      simp only [Bool.false_eq_true, ite_false]
      exact ih a
    · simp only [List.foldl_cons, List.filter_cons, hpe, ite_true, List.map_cons]
      rw [ih (f e), List.getLastD_cons]

theorem categorizeOne_eq_lastMatch (store : CatStore) (details : String) :
    categorizeOne store details
      = ((store.filter (eligMatch details)).map Prod.fst).getLastD "Uncategorized" := by
  unfold categorizeOne
  have hstep : store.foldl (categorizeStep details) "Uncategorized"
      = store.foldl (fun acc e => if eligMatch details e then e.1 else acc) "Uncategorized" := by
    congr 1
    funext acc e
    exact categorizeStep_eq_if details acc e
  rw [hstep, foldl_overwrite_eq_getLastD]

/-- C1: the classifier iterates categories in store insertion order and each
matching category overwrites the previous assignment, so a transaction ends
with the last matching category in insertion order; in particular with two
matching categories A (first) and B (second) the result is B. -/
theorem c1_classifier_last_match_wins :
    (∀ (store : CatStore) (details : String),
        categorizeOne store details
          = ((store.filter (eligMatch details)).map Prod.fst).getLastD "Uncategorized")
    ∧
    (∀ (A B : String) (kwsA kwsB : List String) (details : String),
        A ≠ "Uncategorized" → B ≠ "Uncategorized" →
        kwsA.any (fun k => pyContains (pyStrip (pyLower details)) (pyStrip (pyLower k))) = true →
        kwsB.any (fun k => pyContains (pyStrip (pyLower details)) (pyStrip (pyLower k))) = true →
        categorizeOne [(A, kwsA), (B, kwsB)] details = B) := by
  constructor
  · exact categorizeOne_eq_lastMatch
  · intro A B kwsA kwsB details hA hB hmA hmB
    have neA : kwsA ≠ [] := by rintro rfl; simp at hmA
    have neB : kwsB ≠ [] := by rintro rfl; simp at hmB
    have eA : eligMatch details (A, kwsA) = true := by
      simp [eligMatch, hA, hmA, List.isEmpty_iff, neA]
    have eB : eligMatch details (B, kwsB) = true := by
      simp [eligMatch, hB, hmB, List.isEmpty_iff, neB]
    rw [categorizeOne_eq_lastMatch]
    simp [List.filter_cons, eA, eB]

/-- C1 witness: with category Food (keyword metro) inserted before category
Transit (keyword bus), a transaction matching both ends as Transit. -/
theorem c1_classifier_last_match_wins_witness :
    categorizeOne [("Food", ["metro"]), ("Transit", ["bus"])] " Metro bus 99" = "Transit" :=
  c1_classifier_last_match_wins.2 "Food" "Transit" ["metro"] ["bus"] " Metro bus 99"
    (by decide) (by decide) (by decide) (by decide)

/-- C10: classification is idempotent, and the output category of every
transaction depends only on its details and the store, not on its prior
category value. -/
theorem c10_classification_idempotent :
    ∀ (store : CatStore) (txns : List Txn),
      categorize_transactions store (categorize_transactions store txns)
          = categorize_transactions store txns
      ∧ (categorize_transactions store txns).map (fun t => t.category)
          = txns.map (fun t => categorizeOne store t.details) := by
  intro store txns
  refine ⟨?_, ?_⟩ <;>
    · unfold categorize_transactions
      rw [List.map_map]
      rfl

theorem dropWhile_idem (p : α → Bool) (l : List α) :
    (l.dropWhile p).dropWhile p = l.dropWhile p := by
  induction l with
  | nil => rfl
  | cons a t ih =>
    rcases h : p a with _ | _
    · simp [List.dropWhile_cons, h]
    · simp [List.dropWhile_cons, h, ih]

theorem dropWhile_append_single (p : α → Bool) (a : α) (h : p a = false) (l : List α) :
    (l ++ [a]).dropWhile p = l.dropWhile p ++ [a] := by
  induction l with
  | nil => simp [List.dropWhile_cons, h]
  | cons b t ih =>
    rcases hb : p b with _ | _
    · simp [List.dropWhile_cons, hb]
    · simp [List.dropWhile_cons, hb, ih]

theorem length_dropWhile_below (p : α → Bool) (l : List α) :
    (l.dropWhile p).length ≤ l.length := by
  induction l with
  | nil => simp
  | cons a t ih =>
    rw [List.dropWhile_cons]
    rcases h : p a with _ | _
    · simp
    · simp only [ite_true]
      exact Nat.le_trans ih (Nat.le_succ _)

theorem dropWhile_of_reverse_dropWhile (p : α → Bool) (x : List α)
    (hx : x.dropWhile p = x) :
    ((x.reverse.dropWhile p).reverse).dropWhile p = (x.reverse.dropWhile p).reverse := by
  rcases x with _ | ⟨a, t⟩
  · rfl
  · have ha : p a = false := by
      rcases h : p a with _ | _
      · rfl
      · exfalso
        rw [List.dropWhile_cons, h, if_pos rfl] at hx
        have := length_dropWhile_below p t
        have := congrArg List.length hx
        simp at this
        omega
    rw [List.reverse_cons, dropWhile_append_single p a ha, List.reverse_append]
    simp only [List.reverse_cons, List.reverse_nil, List.nil_append, List.singleton_append]
    rw [List.dropWhile_cons, ha]
    simp

theorem trimChars_idem (cs : List Char) : trimChars (trimChars cs) = trimChars cs := by
  unfold trimChars
  set p := isSpaceChar
  set x := cs.dropWhile p with hx
  have h1 : x.dropWhile p = x := dropWhile_idem p cs
  have h2 := dropWhile_of_reverse_dropWhile p x h1
  rw [h2]
  rw [List.reverse_reverse, dropWhile_idem]

theorem toNat_ofNat_of_lt (n : Nat) (h : n < 55296) : (Char.ofNat n).toNat = n := by
  have hv : n.isValidChar := Or.inl h
  rw [Char.ofNat, dif_pos hv]
  simp [Char.ofNatAux, Char.toNat, UInt32.toNat]

theorem isSpaceChar_pyLowerChar (c : Char) : isSpaceChar (pyLowerChar c) = isSpaceChar c := by
  unfold pyLowerChar
  split
  · rename_i h
    have h1 : (Char.ofNat (c.toNat + 32)).toNat = c.toNat + 32 :=
      toNat_ofNat_of_lt _ (by omega)
    unfold isSpaceChar
    rw [h1, decide_eq_decide]
    omega
  · rfl

theorem dropWhile_space_map_lower (l : List Char) :
    (l.map pyLowerChar).dropWhile isSpaceChar = (l.dropWhile isSpaceChar).map pyLowerChar := by
  have hp : (isSpaceChar ∘ pyLowerChar) = isSpaceChar := by
    funext c
    exact isSpaceChar_pyLowerChar c
  rw [List.dropWhile_map, hp]

theorem trimChars_map_lower (l : List Char) :
    trimChars (l.map pyLowerChar) = (trimChars l).map pyLowerChar := by
  unfold trimChars
  rw [dropWhile_space_map_lower, ← List.map_reverse, dropWhile_space_map_lower,
    List.map_reverse]

theorem pyStrip_pyLower_pyStrip (s : String) :
    pyStrip (pyLower (pyStrip s)) = pyLower (pyStrip s) := by
  show String.mk (trimChars ((trimChars s.data).map pyLowerChar))
      = String.mk ((trimChars s.data).map pyLowerChar)
  rw [trimChars_map_lower, trimChars_idem]

theorem storeGet_find?_none {store : CatStore} {c : String}
    (h : storeGet store c = none) : store.find? (fun e => e.1 == c) = none := by
  unfold storeGet at h
  rcases hf : store.find? (fun e => e.1 == c) with _ | e
  · exact hf
  · rw [hf] at h
    simp at h

theorem storeGet_append_none (store : CatStore) (c : String) (v : List String)
    (h : storeGet store c = none) : storeGet (store ++ [(c, v)]) c = some v := by
  unfold storeGet
  rw [List.find?_append, storeGet_find?_none h]
  simp [List.find?_cons]

theorem storeGet_storeSet_self (store : CatStore) (c : String) (v : List String)
    (kws : List String) (h : storeGet store c = some kws) :
    storeGet (storeSet store c v) c = some v := by
  unfold storeGet storeSet at *
  induction store with
  | nil => simp at h
  | cons e t ih =>
    rcases he : (e.1 == c) with _ | _
    · rw [List.find?_cons_of_neg _ (by simp [he])] at h
      rw [List.map_cons, if_neg (by simp [he]),
        List.find?_cons_of_neg _ (by simp [he])]
      exact ih h
    · rw [List.map_cons, if_pos he, List.find?_cons_of_pos _ (by simp)]
      rfl

theorem storeSet_append_fresh (store : CatStore) (c : String) (w v : List String)
    (h : storeGet store c = none) :
    storeSet (store ++ [(c, w)]) c v = store ++ [(c, v)] := by
  unfold storeSet
  rw [List.map_append]
  have h0 : ∀ e ∈ store, (e.1 == c) = false := by
    intro e he
    have := List.find?_eq_none.mp (storeGet_find?_none h) e he
    simpa using this
  congr 1
  · have : store.map (fun e => if e.1 == c then (c, v) else e) = store.map id := by
      apply List.map_congr_left
      intro e he
      rw [if_neg (by simp [h0 e he])]
      rfl
    rw [this, List.map_id]
  · simp

theorem addKw_empty (store : CatStore) (c kw : String) (h : pyStrip kw = "") :
    add_keyword_to_category store c kw = (store, false) := by
  unfold add_keyword_to_category
  simp [h]

theorem addKw_dup (store : CatStore) (c kw : String) (kws : List String)
    (hne : pyStrip kw ≠ "") (hg : storeGet store c = some kws)
    (hdup : (kws.map (fun k => pyStrip (pyLower k))).contains (pyLower (pyStrip kw)) = true) :
    add_keyword_to_category store c kw = (store, false) := by
  unfold add_keyword_to_category
  simp only [hne, ite_false, hg, Option.isSome_some, ite_true, Option.getD_some, hdup]

theorem addKw_new (store : CatStore) (c kw : String) (kws : List String)
    (hne : pyStrip kw ≠ "") (hg : storeGet store c = some kws)
    (hdup : (kws.map (fun k => pyStrip (pyLower k))).contains (pyLower (pyStrip kw)) = false) :
    add_keyword_to_category store c kw = (storeSet store c (kws ++ [pyStrip kw]), true) := by
  unfold add_keyword_to_category
  simp only [hne, ite_false, hg, Option.isSome_some, ite_true, Option.getD_some, hdup,
    Bool.false_eq_true]

theorem addKw_fresh (store : CatStore) (c kw : String)
    (hne : pyStrip kw ≠ "") (hg : storeGet store c = none) :
    add_keyword_to_category store c kw = (store ++ [(c, [pyStrip kw])], true) := by
  unfold add_keyword_to_category
  have hg1 : storeGet (store ++ [(c, [])]) c = some [] := storeGet_append_none store c [] hg
  simp only [hne, ite_false, hg, Option.isSome_none, Bool.false_eq_true, hg1,
    Option.getD_some, List.map_nil, List.contains_nil, List.nil_append]
  rw [storeSet_append_fresh store c [] [pyStrip kw] hg]

theorem addKw_second_noop (store : CatStore) (c kw : String) (hne : pyStrip kw ≠ "") :
    add_keyword_to_category (add_keyword_to_category store c kw).1 c kw
      = ((add_keyword_to_category store c kw).1, false) := by
  rcases hg : storeGet store c with _ | kws
  · rw [addKw_fresh store c kw hne hg]
    have hg1 : storeGet (store ++ [(c, [pyStrip kw])]) c = some [pyStrip kw] :=
      storeGet_append_none store c _ hg
    exact addKw_dup _ c kw _ hne hg1 (by simp [pyStrip_pyLower_pyStrip])
  · rcases hdup : (kws.map (fun k => pyStrip (pyLower k))).contains (pyLower (pyStrip kw))
        with _ | _
    · rw [addKw_new store c kw kws hne hg hdup]
      have hg1 : storeGet (storeSet store c (kws ++ [pyStrip kw])) c
          = some (kws ++ [pyStrip kw]) :=
        storeGet_storeSet_self store c _ kws hg
      exact addKw_dup _ c kw _ hne hg1
        (by simp [List.map_append, pyStrip_pyLower_pyStrip])
    · rw [addKw_dup store c kw kws hne hg hdup]
      exact addKw_dup store c kw kws hne hg hdup

/-- C3: keyword learning is an idempotent no-op on duplicates: empty trimmed
text and case-insensitive duplicates are rejected without change, otherwise
the raw stripped text is appended (creating the category when absent), and a
second identical call changes nothing, leaving exactly one copy. -/
theorem c3_keyword_learning_idempotent :
    (∀ (store : CatStore) (c kw : String), pyStrip kw = "" →
        add_keyword_to_category store c kw = (store, false))
    ∧
    (∀ (store : CatStore) (c kw : String) (kws : List String),
        pyStrip kw ≠ "" → storeGet store c = some kws →
        (kws.map (fun k => pyStrip (pyLower k))).contains (pyLower (pyStrip kw)) = true →
        add_keyword_to_category store c kw = (store, false))
    ∧
    (∀ (store : CatStore) (c kw : String) (kws : List String),
        pyStrip kw ≠ "" → storeGet store c = some kws →
        (kws.map (fun k => pyStrip (pyLower k))).contains (pyLower (pyStrip kw)) = false →
        add_keyword_to_category store c kw = (storeSet store c (kws ++ [pyStrip kw]), true))
    ∧
    (∀ (store : CatStore) (c kw : String),
        pyStrip kw ≠ "" → storeGet store c = none →
        add_keyword_to_category store c kw = (store ++ [(c, [pyStrip kw])], true))
    ∧
    (∀ (store : CatStore) (c kw : String), pyStrip kw ≠ "" →
        add_keyword_to_category (add_keyword_to_category store c kw).1 c kw
          = ((add_keyword_to_category store c kw).1, false))
    ∧
    (∀ (store : CatStore) (c kw : String),
        pyStrip kw ≠ "" → storeGet store c = none →
        ((storeGet (add_keyword_to_category
            (add_keyword_to_category store c kw).1 c kw).1 c).getD
          []).count (pyStrip kw) = 1) := by
  refine ⟨addKw_empty, addKw_dup, addKw_new, addKw_fresh, addKw_second_noop, ?_⟩
  intro store c kw hne hg
  rw [addKw_second_noop store c kw hne, addKw_fresh store c kw hne hg]
  rw [storeGet_append_none store c _ hg]
  simp

/-- C3 witness: adding keyword Metro #123 to category Groceries twice on a
store that lacks the category leaves exactly one copy of the keyword. -/
theorem c3_keyword_learning_idempotent_witness :
    ((storeGet (add_keyword_to_category
        (add_keyword_to_category [("Uncategorized", [])] "Groceries" "Metro #123").1
        "Groceries" "Metro #123").1 "Groceries").getD []).count (pyStrip "Metro #123") = 1 :=
  c3_keyword_learning_idempotent.2.2.2.2.2 [("Uncategorized", [])] "Groceries" "Metro #123"
    (by decide) (by decide)

/-- C4 counterexample: a corrupt Category Store file is not recovered; the
category load propagates the read error instead of yielding a default store. -/
theorem c4_category_load_counterexample :
    loadCategories (some (Except.error "corrupt")) = Except.error "corrupt" := rfl

/-- C4 amended: the Budget Map and Recurring Keyword List loads recover from
corrupt or unreadable store files (and from absent files) by falling back to
empty defaults, but the Category Store load has no recovery: a corrupt
category file propagates the read error to the caller. -/
theorem c4_store_load_recovery :
    (∀ e : String, loadBudgets (some (Except.error e)) = [])
    ∧ (∀ e : String, loadRecurring (some (Except.error e)) = [])
    ∧ loadBudgets none = []
    ∧ loadRecurring none = []
    ∧ loadCategories none = Except.ok [("Uncategorized", [])]
    ∧ (∀ e : String, loadCategories (some (Except.error e)) = Except.error e) :=
  ⟨fun _ => rfl, fun _ => rfl, rfl, rfl, rfl, fun _ => rfl⟩

theorem budgetGet_mapUpdate (b : BudgetMap) (cat : String) (v : ℚ)
    (hf : (b.find? (fun e => e.1 == cat)).isSome = true) :
    budgetGet (b.map (fun e => if e.1 == cat then (cat, v) else e)) cat = some v := by
  unfold budgetGet
  induction b with
  | nil => simp at hf
  | cons e t ih =>
    rcases he : (e.1 == cat) with _ | _
    · rw [List.find?_cons_of_neg _ (by simp [he])] at hf
      rw [List.map_cons, if_neg (by simp [he]),
        List.find?_cons_of_neg _ (by simp [he])]
      exact ih hf
    · rw [List.map_cons, if_pos he, List.find?_cons_of_pos _ (by simp)]
      rfl

theorem budgetGet_setBudget (b : BudgetMap) (cat : String) (v : ℚ) :
    budgetGet (setBudget b cat v) cat = some v := by
  unfold setBudget
  rcases hf : (b.find? (fun e => e.1 == cat)).isSome with _ | _
  · simp only [hf, Bool.false_eq_true, ite_false]
    unfold budgetGet
    rw [List.find?_append]
    have h0 : b.find? (fun e => e.1 == cat) = none := by
      rcases h : b.find? (fun e => e.1 == cat) with _ | e
      · exact h
      · rw [h] at hf
        simp at hf
    rw [h0]
    simp [List.find?_cons]
  · simp only [hf, ite_true]
    exact budgetGet_mapUpdate b cat v hf

/-- C9 counterexample: the Save Budget handler does not reject a negative
amount as a no-op: handed -5 it stores -5 in the Budget Map. -/
theorem c9_negative_budget_counterexample :
    setBudget [] "Food" (-5) = [("Food", -5)] := rfl

/-- C9 amended: the save handler applies whatever value it receives and
returns no status; negative budgets are prevented upstream by the number
input widget, whose minimum of 0 clamps every request, so the value stored
through the UI flow is always the clamped, non-negative one. -/
theorem c9_budget_save_clamped :
    ∀ (b : BudgetMap) (cat : String) (requested : ℚ),
      budgetGet (setBudget b cat (numberInputValue 0 requested)) cat
          = some (max 0 requested)
        ∧ 0 ≤ max 0 requested := by
  intro b cat requested
  exact ⟨budgetGet_setBudget b cat _, le_max_left 0 requested⟩

/-- C5: with a positive cap, spending strictly above the cap reports
over-budget with the overage, anything else reports under-budget with the
remaining amount and percent used, progress is clamped at 1, and at
spent = budget the under-budget branch reports remaining 0 and percent 100. -/
theorem c5_budget_status_boundary :
    ∀ (budgets : BudgetMap) (cat : String) (spent budget : ℚ),
      budgetGet budgets cat = some budget → 0 < budget →
      ((budget < spent →
          budgetStatus budgets cat spent
            = BudgetView.over (spent - budget) (min (spent / budget) 1))
        ∧ (spent ≤ budget →
          budgetStatus budgets cat spent
            = BudgetView.under (budget - spent) (spent / budget * 100) (min (spent / budget) 1))
        ∧ (spent = budget →
          budgetStatus budgets cat spent = BudgetView.under 0 100 1)) := by
  intro budgets cat spent budget hg hpos
  unfold budgetStatus
  rw [hg]
  simp only [Option.getD_some]
  refine ⟨?_, ?_, ?_⟩
  · intro hlt
    rw [if_pos hpos, if_pos hlt]
  · intro hle
    rw [if_pos hpos, if_neg (not_lt.mpr hle)]
  · intro heq
    subst heq
    rw [if_pos hpos, if_neg (lt_irrefl spent)]
    have h1 : spent / spent = 1 := div_self (ne_of_gt hpos)
    rw [h1]
    norm_num

/-- C5 witness: category Food with cap 100 and spending exactly 100 lands in
the under-budget branch with remaining 0, percent used 100, progress 1. -/
theorem c5_budget_status_boundary_witness :
    budgetStatus [("Food", 100)] "Food" 100 = BudgetView.under 0 100 1 :=
  (c5_budget_status_boundary [("Food", 100)] "Food" 100 100 rfl (by norm_num)).2.2 rfl

theorem parseDecimal_neg_example :
    parseDecimal (stripCommas "-1,234.50").data = some (-1234.5) := by
  have h : (stripCommas "-1,234.50").data = ['-', '1', '2', '3', '4', '.', '5', '0'] := by
    decide
  rw [h]
  have d1 : digitsToNat ['1', '2', '3', '4'] = 1234 := by decide
  have d2 : digitsToNat ['5', '0'] = 50 := by decide
  show (some (((digitsToNat ['1', '2', '3', '4'] : ℕ) : ℚ)
      + ((digitsToNat ['5', '0'] : ℕ) : ℚ) / (10 : ℚ) ^ 2)).map (fun q => -q) = _
  rw [d1, d2]
  simp only [Option.map_some']
  norm_num

theorem parseDecimal_pos_example :
    parseDecimal (stripCommas "45.00").data = some (45 : ℚ) := by
  have h : (stripCommas "45.00").data = ['4', '5', '.', '0', '0'] := by decide
  rw [h]
  have d1 : digitsToNat ['4', '5'] = 45 := by decide
  have d2 : digitsToNat ['0', '0'] = 0 := by decide
  show some (((digitsToNat ['4', '5'] : ℕ) : ℚ)
      + ((digitsToNat ['0', '0'] : ℕ) : ℚ) / (10 : ℚ) ^ 2) = _
  rw [d1, d2]
  norm_num

/-- C7: the loader strips thousands separators before decimal parsing, the
sign of the parsed value determines the direction (Credit exactly when
negative), the stored amount is the absolute value, and on the two reference
inputs: -1,234.50 gives amount 1234.50 Credit and 45.00 gives 45.00 Debit. -/
theorem c7_amount_normalization :
    (∀ (s : String) (x : ℚ), parseDecimal (stripCommas s).data = some x →
        parseRowAmount s = some (|x|, if x < 0 then "Credit" else "Debit"))
    ∧ parseRowAmount "-1,234.50" = some (2469 / 2, "Credit")
    ∧ parseRowAmount "45.00" = some (45, "Debit") := by
  refine ⟨?_, ?_, ?_⟩
  · intro s x h
    unfold parseRowAmount
    rw [h]
    rfl
  · unfold parseRowAmount
    rw [parseDecimal_neg_example]
    simp only [Option.map_some']
    have hneg : (-1234.5 : ℚ) < 0 := by norm_num
    rw [abs_of_neg hneg, if_pos hneg]
    norm_num
  · unfold parseRowAmount
    rw [parseDecimal_pos_example]
    simp only [Option.map_some']
    have hpos : ¬((45 : ℚ) < 0) := by norm_num
    rw [abs_of_nonneg (by norm_num), if_neg hpos]

/-- C7 witness: the general normalization statement applied to -1,234.50,
whose comma-stripped text parses to the rational -1234.5. -/
theorem c7_amount_normalization_witness :
    parseRowAmount "-1,234.50"
      = some (|(-1234.5 : ℚ)|, if (-1234.5 : ℚ) < 0 then "Credit" else "Debit") :=
  c7_amount_normalization.1 "-1,234.50" (-1234.5) parseDecimal_neg_example

theorem parseRows_none_of_mem (cols : Nat × Nat × Nat) (rows : List (List String))
    (row : List String) (hmem : row ∈ rows) (hbad : parseRow cols row = none) :
    parseRows cols rows = none := by
  induction rows with
  | nil => simp at hmem
  | cons r rest ih =>
    unfold parseRows
    rcases List.mem_cons.mp hmem with rfl | hmem2
    · rw [hbad]
    · rw [ih hmem2]
      rcases parseRow cols r with _ | t <;> rfl

theorem parseRows_length (cols : Nat × Nat × Nat) (rows : List (List String))
    (ts : List Txn) (h : parseRows cols rows = some ts) : ts.length = rows.length := by
  induction rows generalizing ts with
  | nil =>
    unfold parseRows at h
    cases h
    rfl
  | cons r rest ih =>
    unfold parseRows at h
    rcases hr : parseRow cols r with _ | t
    · rw [hr] at h
      cases h
    · rw [hr] at h
      rcases hrest : parseRows cols rest with _ | ts0
      · rw [hrest] at h
        cases h
      · rw [hrest] at h
        cases h
        simp [ih ts0 hrest]

/-- C8: parsing is all-or-nothing: a missing required column or any
unparsable row aborts the whole load with a single error message and no
transactions, a successful load parses every row, and a failed load leaves
the process stores untouched and produces no transactions. -/
theorem c8_parsing_all_or_nothing :
    (∀ (store : CatStore) (l1 l2 header : List String) (rows : List (List String)),
        findCols header = none →
        load_transactions store (l1 :: l2 :: header :: rows)
          = Except.error "error processing file: missing column")
    ∧
    (∀ (store : CatStore) (l1 l2 header : List String) (rows : List (List String))
        (cols : Nat × Nat × Nat) (row : List String),
        findCols header = some cols →
        row ∈ rows → parseRow cols row = none →
        load_transactions store (l1 :: l2 :: header :: rows)
          = Except.error "error processing file: malformed row")
    ∧
    (∀ (store : CatStore) (l1 l2 header : List String) (rows : List (List String))
        (ts : List Txn),
        load_transactions store (l1 :: l2 :: header :: rows) = Except.ok ts →
        ts.length = rows.length)
    ∧
    (∀ (st : AppState) (lines : List (List String)) (e : String),
        load_transactions st.categories lines = Except.error e →
        uploadStep st lines = (st, none)) := by
  refine ⟨?_, ?_, ?_, ?_⟩
  · intro store l1 l2 header rows hc
    dsimp only [load_transactions]
    rw [hc]
  · intro store l1 l2 header rows cols row hc hmem hbad
    dsimp only [load_transactions]
    rw [hc]
    dsimp only
    rw [parseRows_none_of_mem cols rows row hmem hbad]
  · intro store l1 l2 header rows ts h
    dsimp only [load_transactions] at h
    rcases hc : findCols header with _ | cols
    · rw [hc] at h
      cases h
    · rw [hc] at h
      dsimp only at h
      rcases hr : parseRows cols rows with _ | ts0
      · rw [hr] at h
        cases h
      · rw [hr] at h
        cases h
        unfold categorize_transactions
        rw [List.length_map]
        exact parseRows_length cols rows ts0 hr
  · intro st lines e h
    unfold uploadStep
    rw [h]

/-- C8 witness: a file whose fourth line carries a 7-digit date aborts the
whole load with the single malformed-row message. -/
theorem c8_parsing_all_or_nothing_witness :
    load_transactions []
        [[], [], ["Transaction Date", "Description", "Transaction Amount"],
          ["2024010", "Store A", "5"]]
      = Except.error "error processing file: malformed row" :=
  c8_parsing_all_or_nothing.2.1 [] [] []
    ["Transaction Date", "Description", "Transaction Amount"]
    [["2024010", "Store A", "5"]] (0, 1, 2) ["2024010", "Store A", "5"]
    (by decide) (by decide) (by decide)

theorem filter_dedup [DecidableEq α] (q : α → Bool) (l : List α) :
    l.dedup.filter q = (l.filter q).dedup := by
  induction l with
  | nil => rfl
  | cons a t ih =>
    by_cases hmem : a ∈ t
    · rw [List.dedup_cons_of_mem hmem, List.filter_cons]
      rcases hq : q a with _ | _
      · simp only [Bool.false_eq_true, ite_false]
        exact ih
      · simp only [ite_true]
        rw [List.dedup_cons_of_mem (List.mem_filter.mpr ⟨hmem, hq⟩)]
        exact ih
    · rw [List.dedup_cons_of_not_mem hmem, List.filter_cons, List.filter_cons]
      rcases hq : q a with _ | _
      · simp only [Bool.false_eq_true, ite_false]
        exact ih
      · simp only [ite_true]
        rw [List.dedup_cons_of_not_mem (fun hc => hmem (List.mem_of_mem_filter hc)), ih]

theorem dedup_map_of_inj [DecidableEq α] [DecidableEq β] (f : α → β)
    (hf : ∀ a b, f a = f b → a = b) (l : List α) :
    (l.map f).dedup = l.dedup.map f := by
  induction l with
  | nil => rfl
  | cons a t ih =>
    rw [List.map_cons]
    by_cases hmem : a ∈ t
    · rw [List.dedup_cons_of_mem (List.mem_map_of_mem f hmem),
        List.dedup_cons_of_mem hmem, ih]
    · have hnm : f a ∉ t.map f := by
        intro hc
        rcases List.mem_map.mp hc with ⟨b, hb, hfb⟩
        exact hmem (hf b a hfb ▸ hb)
      rw [List.dedup_cons_of_not_mem hnm, List.dedup_cons_of_not_mem hmem,
        List.map_cons, ih]

theorem table_filter_map (L : List (String × (Nat × Nat)))
    (S : String × (Nat × Nat) → ℚ) (d : String) :
    ((L.map (fun k => (k, S k))).filter (fun r => r.1.1 == d)).map (fun r => r.2)
      = (L.filter (fun k => k.1 == d)).map S := by
  induction L with
  | nil => rfl
  | cons k t ih =>
    simp only [List.map_cons, List.filter_cons]
    rcases hk : (k.1 == d) with _ | _
    · simpa [hk] using ih
    · simpa [hk] using ih

theorem map_key_filter (m : List Txn) (d : String) :
    ((m.map (fun t => (t.details, monthOf t))).filter (fun k => k.1 == d))
      = ((m.filter (fun t => t.details == d)).map monthOf).map (Prod.mk d) := by
  induction m with
  | nil => rfl
  | cons t r ih =>
    simp only [List.map_cons, List.filter_cons]
    rcases ht : (t.details == d) with _ | _
    · simpa [ht] using ih
    · have hd : t.details = d := by simpa using ht
      simp only [ht, ite_true, List.map_cons, hd, ih]

theorem monthlyTotals_filter_eq (m : List Txn) (d : String) :
    ((monthly_totals m).filter (fun r => r.1.1 == d)).map (fun r => r.2)
      = (merchantMonths m d).map (merchantMonthSum m d) := by
  unfold monthly_totals
  rw [table_filter_map ((m.map (fun t => (t.details, monthOf t))).dedup)
      (fun key => ((m.filter (fun t => (t.details, monthOf t) == key)).map
        (fun t => t.amount)).sum) d]
  rw [filter_dedup, map_key_filter,
    dedup_map_of_inj (Prod.mk d) (fun a b h => congrArg Prod.snd h), List.map_map]
  rfl

theorem monthlyEstimate_eq_avg (m : List Txn) (d : String)
    (h : ∃ t ∈ m, t.details = d) :
    monthly_estimate m d = some (avgMonthlySums m d) := by
  obtain ⟨t, ht, hd⟩ := h
  have hmem : monthOf t ∈ merchantMonths m d := by
    unfold merchantMonths
    exact List.mem_dedup.mpr
      (List.mem_map_of_mem monthOf (List.mem_filter.mpr ⟨ht, by simp [hd]⟩))
  have hne : (merchantMonths m d).length ≠ 0 := by
    intro hlen
    rw [List.length_eq_zero] at hlen
    rw [hlen] at hmem
    simp at hmem
  unfold monthly_estimate
  dsimp only
  rw [monthlyTotals_filter_eq, List.length_map, if_neg hne]
  unfold avgMonthlySums
  rfl

theorem exStream_months :
    merchantMonths exStream "StreamCo" = [((2024 : Nat), (1 : Nat)), (2024, 3)] := by
  decide

theorem exStream_jan_sum :
    merchantMonthSum exStream "StreamCo" ((2024 : Nat), (1 : Nat)) = 10 := by
  show ([4, 6] : List ℚ).sum = 10
  simp only [List.sum_cons, List.sum_nil]
  norm_num

theorem exStream_mar_sum :
    merchantMonthSum exStream "StreamCo" ((2024 : Nat), (3 : Nat)) = 10 := by
  show ([10] : List ℚ).sum = 10
  simp only [List.sum_cons, List.sum_nil]
  norm_num

theorem exStream_avg : avgMonthlySums exStream "StreamCo" = 10 := by
  unfold avgMonthlySums
  rw [exStream_months]
  simp only [List.map_cons, List.map_nil, List.sum_cons, List.sum_nil,
    List.length_cons, List.length_nil]
  rw [exStream_jan_sum, exStream_mar_sum]
  norm_num

theorem exStream_estimate : monthly_estimate exStream "StreamCo" = some 10 := by
  have hex : monthly_estimate exStream "StreamCo"
      = some (avgMonthlySums exStream "StreamCo") :=
    monthlyEstimate_eq_avg exStream "StreamCo"
      ⟨⟨2024, 1, 3, "StreamCo", 4, "Debit", "Uncategorized"⟩, by decide, rfl⟩
  rw [hex, exStream_avg]

/-- C2: the per-merchant monthly estimate is the mean of per-calendar-month
sums of the keyword-matched transactions, not the mean per transaction: the
(merchant, month) table is summed and then averaged per merchant, and the
reference merchant with 10 in January (spread over two rows of 4 and 6) and
10 in March has estimate 10, not 20/3. -/
theorem c2_monthly_estimate_mean_of_month_sums :
    (∀ (recurring : List String) (txns : List Txn) (d : String),
        (∃ t ∈ recurringMatches recurring txns, t.details = d) →
        monthly_estimate (recurringMatches recurring txns) d
          = some (avgMonthlySums (recurringMatches recurring txns) d))
    ∧ monthly_estimate exStream "StreamCo" = some 10
    ∧ monthly_estimate exStream "StreamCo" ≠ some (20 / 3) := by
  refine ⟨?_, exStream_estimate, ?_⟩
  · intro recurring txns d h
    exact monthlyEstimate_eq_avg _ d h
  · rw [exStream_estimate]
    intro hc
    rw [Option.some.injEq] at hc
    norm_num at hc

/-- C2 witness: the estimate of the keyword-matched set of the reference
merchant equals the average of its per-month sums. -/
theorem c2_monthly_estimate_mean_of_month_sums_witness :
    monthly_estimate (recurringMatches ["streamco"] exStream) "StreamCo"
      = some (avgMonthlySums (recurringMatches ["streamco"] exStream) "StreamCo") :=
  c2_monthly_estimate_mean_of_month_sums.1 ["streamco"] exStream "StreamCo"
    ⟨⟨2024, 1, 3, "StreamCo", 4, "Debit", "Uncategorized"⟩, by decide, rfl⟩

/-- C6: every candidates row reaches the distinct-month threshold; when at
most 50 rows qualify, every aggregated merchant reaching the threshold is in
the table; the table has at most 50 rows and is sorted by distinct-month
count then total, both descending; and the merchant with exactly two
distinct months is excluded at threshold 3 and included at threshold 2. -/
theorem c6_candidate_detection :
    (∀ (txns : List Txn) (minMonths : Nat) (r : CandRow),
        r ∈ candidates txns minMonths → minMonths ≤ r.months)
    ∧
    (∀ (txns : List Txn) (minMonths : Nat),
        ((List.insertionSort candBefore (candidateRows (recurringBase txns))).filter
            (fun r => minMonths ≤ r.months)).length ≤ 50 →
        ∀ r ∈ candidateRows (recurringBase txns), minMonths ≤ r.months →
          r ∈ candidates txns minMonths)
    ∧ (∀ (txns : List Txn) (minMonths : Nat), (candidates txns minMonths).length ≤ 50)
    ∧ (∀ (txns : List Txn) (minMonths : Nat),
        List.Sorted candBefore (candidates txns minMonths))
    ∧ candidates exGym 3 = []
    ∧ (candidates exGym 2).map (fun r => r.details) = ["GymCo"] := by
  refine ⟨?_, ?_, ?_, ?_, ?_, ?_⟩
  · intro txns mm r hr
    have h1 : r ∈ (List.insertionSort candBefore (candidateRows (recurringBase txns))).filter
        (fun r => mm ≤ r.months) := List.take_subset 50 _ hr
    exact of_decide_eq_true (List.mem_filter.mp h1).2
  · intro txns mm hlen r hr hmm
    unfold candidates
    rw [List.take_of_length_le hlen]
    exact List.mem_filter.mpr ⟨(List.mem_insertionSort candBefore).mpr hr,
      decide_eq_true hmm⟩
  · intro txns mm
    exact List.length_take_le 50 _
  · intro txns mm
    have hs : List.Sorted candBefore
        (List.insertionSort candBefore (candidateRows (recurringBase txns))) :=
      List.sorted_insertionSort candBefore _
    have hf := hs.filter (fun r => mm ≤ r.months)
    exact List.Pairwise.sublist (List.take_sublist 50 _) hf
  · rfl
  · rfl

/-- C6 witness: the two-distinct-month merchant row is a member of the
candidates table at threshold 2. -/
theorem c6_candidate_detection_witness :
    candRowOf (recurringBase exGym) "GymCo" ∈ candidates exGym 2 :=
  c6_candidate_detection.2.1 exGym 2 (by decide)
    (candRowOf (recurringBase exGym) "GymCo") (List.Mem.head _) (by decide)
